import Mathlib

/-!
Verification of the flux-resampling core and container-handling logic of
`src/scp/scp_write.c` (the `scp_write` tool of disk-utilities).

The resampler is the loop at lines 186-201 of `scp_write.c`:

    for (i = j = 0; i < nr_samples; i++) {
        if (dat[i]) {
            x += (uint64_t)be16toh(dat[i]) * drvtime;
        } else {
            x += (uint64_t)0x10000u * drvtime;
            if (i < (nr_samples-1))
                continue;
        }
        y = x / imtime;
        while (y >= 0x10000u) {
            odat[j++] = 0;
            y -= 0x10000u;
        }
        odat[j++] = htobe16(y ?: 1);
        x %= imtime; /* carry the fractional part */
    }

Samples are modelled as the decoded (`be16toh`) natural-number values of the
16-bit units; the accumulator `x` is a `uint64_t` in the source and is
modelled as an unbounded natural number (across one revolution the format's
field widths keep it far below 2^64, and the specification describes it as
"wide enough to avoid overflow").
-/

/-- The sentinel units written by the resampler's `while` loop
(`while (y >= 0x10000u) { odat[j++] = 0; y -= 0x10000u; }`): one `0` unit
per iteration. -/
def sentinelUnits (y : Nat) : List Nat :=
  if h : 65536 ≤ y then 0 :: sentinelUnits (y - 65536) else []
termination_by y
decreasing_by omega

/-- The value held by `y` when the same `while` loop exits. -/
def sentinelRem (y : Nat) : Nat :=
  if h : 65536 ≤ y then sentinelRem (y - 65536) else y
termination_by y
decreasing_by omega

/-- One emission step of the resampler (lines 194-200 of `scp_write.c`):
`y = x / imtime`, the sentinel-drain loop, the final unit
`odat[j++] = y ?: 1`, and the carry `x %= imtime`.  Returns the emitted
units and the new accumulator value. -/
def emitStep (x imtime : Nat) : List Nat × Nat :=
  let y := sentinelRem (x / imtime)
  (sentinelUnits (x / imtime) ++ [if y = 0 then 1 else y], x % imtime)

/-- The resampling `for` loop of `scp_write.c` (lines 186-201), starting from
accumulator value `x`: a nonzero sample `s` adds `s * drvtime` to the
accumulator, a sentinel sample adds `65536 * drvtime` and skips emission
unless it is the last sample (`if (i < (nr_samples-1)) continue;`); every
non-skipped iteration runs `emitStep`. -/
def resampleAux (imtime drvtime : Nat) : List Nat → Nat → List Nat
  | [], _ => []
  | s :: rest, x =>
    let x1 := x + (if s ≠ 0 then s else 65536) * drvtime
    if s = 0 ∧ rest ≠ [] then
      resampleAux imtime drvtime rest x1
    else
      let p := emitStep x1 imtime
      p.1 ++ resampleAux imtime drvtime rest p.2

/-- The full resampling pass over one revolution's samples: the loop is
entered with `x = 0` (`uint64_t x = 0` at line 163 of `scp_write.c`). -/
def resample (imtime drvtime : Nat) (samples : List Nat) : List Nat :=
  resampleAux imtime drvtime samples 0

/-- The accumulator values recorded immediately after each `x %= imtime`
carry of the resampling loop, i.e. the remainders carried into the next
iteration.  The recursion mirrors `resampleAux` branch for branch. -/
def carryTrace (imtime drvtime : Nat) : List Nat → Nat → List Nat
  | [], _ => []
  | s :: rest, x =>
    let x1 := x + (if s ≠ 0 then s else 65536) * drvtime
    if s = 0 ∧ rest ≠ [] then
      carryTrace imtime drvtime rest x1
    else
      (x1 % imtime) :: carryTrace imtime drvtime rest (x1 % imtime)

/-- Tick value of one 16-bit sample unit under the format's sentinel
convention: a stored `0` stands for exactly 65536 ticks, any other value
for itself. -/
def unitTicks (u : Nat) : Nat := if u = 0 then 65536 else u

/-- Total tick value of a sample-unit sequence under the sentinel
convention. -/
def totalTicks (us : List Nat) : Nat := (us.map unitTicks).sum

/-- Closed form of the sentinel-drain loop's output: one `0` unit per full
65536 contained in `y`. -/
theorem sentinelUnits_spec (y : Nat) :
    sentinelUnits y = List.replicate (y / 65536) 0 := by
  induction y using Nat.strong_induction_on with
  | _ y ih =>
    rw [sentinelUnits]
    by_cases h : 65536 ≤ y
    · rw [dif_pos h, ih (y - 65536) (by omega)]
      have hdiv : y / 65536 = (y - 65536) / 65536 + 1 := by omega
      rw [hdiv, List.replicate_succ]
    · rw [dif_neg h]
      have hdiv : y / 65536 = 0 := Nat.div_eq_of_lt (by omega)
      rw [hdiv, List.replicate]

/-- Closed form of the sentinel-drain loop's exit value: the remainder of
`y` modulo 65536. -/
theorem sentinelRem_spec (y : Nat) : sentinelRem y = y % 65536 := by
  induction y using Nat.strong_induction_on with
  | _ y ih =>
    rw [sentinelRem]
    by_cases h : 65536 ≤ y
    · rw [dif_pos h, ih (y - 65536) (by omega)]
      omega
    · rw [dif_neg h]
      omega

theorem emitStep_fst (x imtime : Nat) :
    (emitStep x imtime).1 =
      List.replicate (x / imtime / 65536) 0 ++
        [if x / imtime % 65536 = 0 then 1 else x / imtime % 65536] := by
  rw [emitStep, sentinelUnits_spec, sentinelRem_spec]

theorem emitStep_snd (x imtime : Nat) : (emitStep x imtime).2 = x % imtime := rfl

theorem totalTicks_nil : totalTicks [] = 0 := rfl

theorem totalTicks_cons (u : Nat) (us : List Nat) :
    totalTicks (u :: us) = unitTicks u + totalTicks us := by
  simp [totalTicks]

theorem totalTicks_append (a b : List Nat) :
    totalTicks (a ++ b) = totalTicks a + totalTicks b := by
  simp [totalTicks]

theorem totalTicks_replicate_zero (k : Nat) :
    totalTicks (List.replicate k 0) = k * 65536 := by
  induction k with
  | zero => rfl
  | succ n ih =>
      rw [List.replicate_succ, totalTicks_cons, ih]
      simp [unitTicks]
      ring

/-- Tick accounting for one emission step: the emitted units carry
`x / imtime` ticks, plus one extra tick exactly when the final unit was
clamped from `0` up to `1`. -/
theorem emitStep_totalTicks (x imtime : Nat) :
    totalTicks (emitStep x imtime).1 =
      x / imtime + (if x / imtime % 65536 = 0 then 1 else 0) := by
  rw [emitStep_fst, totalTicks_append, totalTicks_replicate_zero]
  by_cases h : x / imtime % 65536 = 0 <;>
    simp [h, totalTicks_cons, totalTicks_nil, unitTicks] <;> omega

theorem emitStep_length (x imtime : Nat) :
    (emitStep x imtime).1.length = x / imtime / 65536 + 1 := by
  rw [emitStep_fst]; simp

theorem emitStep_ne_nil (x imtime : Nat) : (emitStep x imtime).1 ≠ [] := by
  rw [emitStep_fst]; simp

theorem resampleAux_nil_eq (imtime drvtime x : Nat) :
    resampleAux imtime drvtime [] x = [] := rfl

/-- Branch equation for a sentinel sample that is not the last one: the
`continue` path accumulates `65536 * drvtime` and emits nothing. -/
theorem resampleAux_cons_skip (imtime drvtime : Nat) (rest : List Nat) (x : Nat)
    (h : rest ≠ []) :
    resampleAux imtime drvtime (0 :: rest) x =
      resampleAux imtime drvtime rest (x + 65536 * drvtime) := by
  simp [resampleAux, h]

/-- Branch equation for an emitting iteration (a nonzero sample, or the
sentinel in last position): the accumulator gains `unitTicks s * drvtime`,
one `emitStep` runs, and the carried remainder feeds the rest of the
loop. -/
theorem resampleAux_cons_emit (imtime drvtime s : Nat) (rest : List Nat) (x : Nat)
    (h : s ≠ 0 ∨ rest = []) :
    resampleAux imtime drvtime (s :: rest) x =
      (emitStep (x + unitTicks s * drvtime) imtime).1 ++
        resampleAux imtime drvtime rest ((x + unitTicks s * drvtime) % imtime) := by
  rcases h with hs | hr
  · simp [resampleAux, hs, emitStep_snd, unitTicks]
  · subst hr
    by_cases hs : s = 0 <;> simp [resampleAux, hs, emitStep_snd, unitTicks]

theorem resampleAux_ne_nil (imtime drvtime : Nat) :
    ∀ (ss : List Nat) (x : Nat), ss ≠ [] → resampleAux imtime drvtime ss x ≠ [] := by
  intro ss
  induction ss with
  | nil => intro x h; exact absurd rfl h
  | cons s rest ih =>
    intro x _
    by_cases hrest : rest = []
    · subst hrest
      rw [resampleAux_cons_emit imtime drvtime s [] x (Or.inr rfl)]
      simp [List.append_eq_nil, emitStep_ne_nil]
    · by_cases hs : s = 0
      · subst hs
        rw [resampleAux_cons_skip imtime drvtime rest x hrest]
        exact ih _ hrest
      · rw [resampleAux_cons_emit imtime drvtime s rest x (Or.inl hs)]
        simp [List.append_eq_nil, emitStep_ne_nil]

/-- Tick accounting for a single emission step, scaled by `imtime`: the
step hands back `x % imtime` as carry and overshoots the accumulated time
by exactly one `imtime` when its final unit was clamped from 0 to 1. -/
theorem emitStep_conserve (x imtime : Nat) :
    ∃ Zs, Zs ≤ 1 ∧
      totalTicks (emitStep x imtime).1 * imtime + x % imtime = x + Zs * imtime := by
  refine ⟨if x / imtime % 65536 = 0 then 1 else 0, ?_, ?_⟩
  · by_cases h : x / imtime % 65536 = 0 <;> simp [h]
  · rw [emitStep_totalTicks]
    have hx : x / imtime * imtime + x % imtime = x := Nat.div_add_mod' x imtime
    by_cases h : x / imtime % 65536 = 0
    · rw [if_pos h]
      linarith [hx]
    · rw [if_neg h]
      linarith [hx]

/-- Exact tick accounting for the whole resampling loop on a nonempty
sample list, started at accumulator `x`: scaled by `imtime`, the emitted
ticks equal the accumulated input ticks, up to a final carry
`xfin < imtime` and one extra `imtime` per clamped final unit (`Z` many,
at most one per emitted unit). -/
theorem resampleAux_conserve (imtime drvtime : Nat) (him : 0 < imtime) :
    ∀ (ss : List Nat) (x : Nat), ss ≠ [] →
      ∃ xfin Z, xfin < imtime ∧ Z ≤ (resampleAux imtime drvtime ss x).length ∧
        totalTicks (resampleAux imtime drvtime ss x) * imtime + xfin =
          x + totalTicks ss * drvtime + Z * imtime := by
  intro ss
  induction ss with
  | nil => intro x hx; exact absurd rfl hx
  | cons s rest ih =>
    intro x _
    by_cases hrest : rest = []
    · subst hrest
      rw [resampleAux_cons_emit imtime drvtime s [] x (Or.inr rfl),
        resampleAux_nil_eq, List.append_nil]
      obtain ⟨Zs, hZs, hstep⟩ := emitStep_conserve (x + unitTicks s * drvtime) imtime
      refine ⟨(x + unitTicks s * drvtime) % imtime, Zs, Nat.mod_lt _ him, ?_, ?_⟩
      · have hlen := emitStep_length (x + unitTicks s * drvtime) imtime
        rw [hlen]
        exact le_trans hZs (Nat.le_add_left 1 _)
      · rw [totalTicks_cons, totalTicks_nil, hstep]
        ring
    · by_cases hs : s = 0
      · subst hs
        rw [resampleAux_cons_skip imtime drvtime rest x hrest]
        obtain ⟨xf, Z, h1, h2, h3⟩ := ih (x + 65536 * drvtime) hrest
        refine ⟨xf, Z, h1, h2, ?_⟩
        rw [h3, totalTicks_cons]
        simp [unitTicks]
        ring
      · rw [resampleAux_cons_emit imtime drvtime s rest x (Or.inl hs)]
        obtain ⟨xf, Z, h1, h2, h3⟩ := ih ((x + unitTicks s * drvtime) % imtime) hrest
        obtain ⟨Zs, hZs, hstep⟩ := emitStep_conserve (x + unitTicks s * drvtime) imtime
        refine ⟨xf, Zs + Z, h1, ?_, ?_⟩
        · rw [List.length_append]
          have hlen := emitStep_length (x + unitTicks s * drvtime) imtime
          rw [hlen]
          exact add_le_add (le_trans hZs (Nat.le_add_left 1 _)) h2
        · rw [totalTicks_append, totalTicks_cons, add_mul, add_mul, add_mul]
          linarith [h3, hstep]

theorem carryTrace_nil_eq (imtime drvtime x : Nat) :
    carryTrace imtime drvtime [] x = [] := rfl

theorem carryTrace_cons_skip (imtime drvtime : Nat) (rest : List Nat) (x : Nat)
    (h : rest ≠ []) :
    carryTrace imtime drvtime (0 :: rest) x =
      carryTrace imtime drvtime rest (x + 65536 * drvtime) := by
  simp [carryTrace, h]

theorem carryTrace_cons_emit (imtime drvtime s : Nat) (rest : List Nat) (x : Nat)
    (h : s ≠ 0 ∨ rest = []) :
    carryTrace imtime drvtime (s :: rest) x =
      ((x + unitTicks s * drvtime) % imtime) ::
        carryTrace imtime drvtime rest ((x + unitTicks s * drvtime) % imtime) := by
  rcases h with hs | hr
  · simp [carryTrace, hs, unitTicks]
  · subst hr
    by_cases hs : s = 0 <;> simp [carryTrace, hs, unitTicks]

/-- Claim C1: for every input sample sequence and `imtime > 0`,
`drvtime > 0`, the total emitted time (each sentinel unit counting as
exactly 65536 ticks) equals the total input time (same convention) scaled
by `drvtime / imtime`, within one tick per emitted output unit: scaled
through by `imtime`, the absolute discrepancy is at most
`(number of output units) * imtime`, so there is no unbounded drift. -/
theorem resample_time_conservation (imtime drvtime : Nat)
    (him : 0 < imtime) (hdrv : 0 < drvtime) (samples : List Nat) :
    ((totalTicks (resample imtime drvtime samples) : Int) * imtime -
        (totalTicks samples : Int) * drvtime).natAbs ≤
      (resample imtime drvtime samples).length * imtime := by
  by_cases hsnil : samples = []
  · subst hsnil
    simp [resample, resampleAux_nil_eq, totalTicks_nil]
  · obtain ⟨xf, Z, h1, h2, h3⟩ := resampleAux_conserve imtime drvtime him samples 0 hsnil
    have hne : resampleAux imtime drvtime samples 0 ≠ [] :=
      resampleAux_ne_nil imtime drvtime samples 0 hsnil
    have hlen : 0 < (resampleAux imtime drvtime samples 0).length :=
      List.length_pos.mpr hne
    have hZL : Z * imtime ≤ (resampleAux imtime drvtime samples 0).length * imtime :=
      Nat.mul_le_mul_right imtime h2
    have hiL : imtime ≤ (resampleAux imtime drvtime samples 0).length * imtime :=
      Nat.le_mul_of_pos_left imtime hlen
    simp only [resample]
    rw [← Nat.cast_mul, ← Nat.cast_mul]
    generalize hA : totalTicks (resampleAux imtime drvtime samples 0) * imtime = A at h3 ⊢
    generalize hB : totalTicks samples * drvtime = B at h3 ⊢
    generalize hZI : Z * imtime = ZI at h3 hZL
    generalize hLI : (resampleAux imtime drvtime samples 0).length * imtime = LI at hZL hiL ⊢
    omega

theorem resample_time_conservation_witness :
    0 < 3 ∧ 0 < 2 ∧
      ((totalTicks (resample 3 2 [5]) : Int) * 3 -
          (totalTicks [5] : Int) * 2).natAbs ≤
        (resample 3 2 [5]).length * 3 :=
  ⟨by decide, by decide, resample_time_conservation 3 2 (by decide) (by decide) [5]⟩

/-- Claim C2: an emission step whose accumulated quotient `y = x / imtime`
equals `k * 65536 + r` with `0 ≤ r < 65536` emits exactly `k` sentinel
units (value 0) followed by exactly one unit of value `r`, except that a
final value of 0 is clamped to 1; the clamp applies only to that final
unit, never to the intermediate sentinel chunks. -/
theorem emitStep_sentinel_run (x imtime k r : Nat) (him : 0 < imtime)
    (hy : x / imtime = k * 65536 + r) (hr : r < 65536) :
    (emitStep x imtime).1 = List.replicate k 0 ++ [if r = 0 then 1 else r] := by
  rw [emitStep_fst, hy]
  have h1 : (k * 65536 + r) / 65536 = k := by omega
  have h2 : (k * 65536 + r) % 65536 = r := by omega
  rw [h1, h2]

theorem emitStep_sentinel_run_witness :
    0 < 1 ∧ 131074 / 1 = 2 * 65536 + 2 ∧ 2 < 65536 ∧
      (emitStep 131074 1).1 = List.replicate 2 0 ++ [if 2 = 0 then 1 else 2] :=
  ⟨by decide, by decide, by decide,
    emitStep_sentinel_run 131074 1 2 2 (by decide) (by decide) (by decide)⟩

/-- Claim C9: for every input sequence and `imtime > 0`, each accumulator
value recorded immediately after an emission step's `x %= imtime` carry is
strictly below `imtime`; the remainder carried into every subsequent
sample's accumulation therefore lies in `[0, imtime)`. -/
theorem carryTrace_lt_imtime (imtime drvtime : Nat) (him : 0 < imtime) :
    ∀ (ss : List Nat) (x c : Nat), c ∈ carryTrace imtime drvtime ss x → c < imtime := by
  intro ss
  induction ss with
  | nil =>
    intro x c hc
    rw [carryTrace_nil_eq] at hc
    exact absurd hc (List.not_mem_nil c)
  | cons s rest ih =>
    intro x c hc
    by_cases hrest : rest = []
    · subst hrest
      rw [carryTrace_cons_emit imtime drvtime s [] x (Or.inr rfl)] at hc
      rcases List.mem_cons.mp hc with h | h
      · subst h; exact Nat.mod_lt _ him
      · exact ih _ _ h
    · by_cases hs : s = 0
      · subst hs
        rw [carryTrace_cons_skip imtime drvtime rest x hrest] at hc
        exact ih _ _ hc
      · rw [carryTrace_cons_emit imtime drvtime s rest x (Or.inl hs)] at hc
        rcases List.mem_cons.mp hc with h | h
        · subst h; exact Nat.mod_lt _ him
        · exact ih _ _ h

theorem carryTrace_lt_imtime_witness : 0 < 3 ∧ (1 : Nat) < 3 :=
  ⟨by decide, carryTrace_lt_imtime 3 2 (by decide) [5] 0 1 (by decide)⟩

/-- Shape invariant of the resampler's output stream: a concatenation of
emission-step outputs, each consisting of some sentinel units (value 0)
followed by one non-sentinel unit in `[1, 65535]`. -/
inductive SCPRun : List Nat → Prop
  | nil : SCPRun []
  | run (k v : Nat) (rest : List Nat) (h1 : 1 ≤ v) (h2 : v ≤ 65535)
      (hrest : SCPRun rest) : SCPRun (List.replicate k 0 ++ v :: rest)

theorem scprun_emit_prepend (x imtime : Nat) (rest : List Nat) (h : SCPRun rest) :
    SCPRun ((emitStep x imtime).1 ++ rest) := by
  rw [emitStep_fst, List.append_assoc, List.singleton_append]
  by_cases hz : x / imtime % 65536 = 0
  · rw [if_pos hz]
    exact SCPRun.run _ 1 rest (by omega) (by omega) h
  · rw [if_neg hz]
    have hlt : x / imtime % 65536 < 65536 := Nat.mod_lt _ (by omega)
    exact SCPRun.run _ _ rest (by omega) (by omega) h

theorem scprun_resampleAux (imtime drvtime : Nat) :
    ∀ (ss : List Nat) (x : Nat), SCPRun (resampleAux imtime drvtime ss x) := by
  intro ss
  induction ss with
  | nil =>
    intro x
    rw [resampleAux_nil_eq]
    exact SCPRun.nil
  | cons s rest ih =>
    intro x
    by_cases hrest : rest = []
    · subst hrest
      rw [resampleAux_cons_emit imtime drvtime s [] x (Or.inr rfl)]
      exact scprun_emit_prepend _ _ _ SCPRun.nil
    · by_cases hs : s = 0
      · subst hs
        rw [resampleAux_cons_skip imtime drvtime rest x hrest]
        exact ih _
      · rw [resampleAux_cons_emit imtime drvtime s rest x (Or.inl hs)]
        exact scprun_emit_prepend _ _ _ (ih _)

theorem scprun_mem_le (l : List Nat) (h : SCPRun l) : ∀ u ∈ l, u ≤ 65535 := by
  induction h with
  | nil =>
    intro u hu
    exact absurd hu (List.not_mem_nil u)
  | run k v rest h1 h2 hrest ih =>
    intro u hu
    rcases List.mem_append.mp hu with hu | hu
    · have h0 := List.eq_of_mem_replicate hu
      omega
    · rcases List.mem_cons.mp hu with hu | hu
      · omega
      · exact ih u hu

theorem scprun_getLast (l : List Nat) (h : SCPRun l) :
    l ≠ [] → ∃ v, l.getLast? = some v ∧ 1 ≤ v ∧ v ≤ 65535 := by
  induction h with
  | nil => intro hne; exact absurd rfl hne
  | run k v rest h1 h2 hrest ih =>
    intro _
    by_cases hr : rest = []
    · subst hr
      exact ⟨v, List.getLast?_concat _, h1, h2⟩
    · obtain ⟨w, hw, hw1, hw2⟩ := ih hr
      refine ⟨w, ?_, hw1, hw2⟩
      obtain ⟨r, rest2, hrr⟩ := List.exists_cons_of_ne_nil hr
      subst hrr
      rw [List.getLast?_append, List.getLast?_cons_cons, hw]
      rfl

/-- In any list whose last element is nonzero, every zero element has a
successor position. -/
theorem zero_has_successor (l : List Nat) (v : Nat)
    (hv : l.getLast? = some v) (hvne : v ≠ 0) :
    ∀ i (hi : i < l.length), l[i] = 0 → i + 1 < l.length := by
  intro i hi h0
  by_contra hcon
  have hieq : i = l.length - 1 := by omega
  have hlast : l.getLast? = some l[i] := by
    rw [List.getLast?_eq_getElem?]
    subst hieq
    exact List.getElem?_eq_getElem hi
  rw [hv, h0] at hlast
  exact hvne (Option.some.inj hlast)

/-- Claim C6: for all valid inputs (`imtime > 0`, `drvtime > 0`), every
unit emitted by the resampler is either the sentinel value 0 or lies in
`[1, 65535]` (all units are at most 65535), and a literal 0 is never
emitted for a real, non-sentinel interval: every emitted 0 unit is
followed by at least one further unit, i.e. acts as a sentinel. -/
theorem resample_no_spurious_zero (imtime drvtime : Nat)
    (him : 0 < imtime) (hdrv : 0 < drvtime) (samples : List Nat) :
    ∀ i (hi : i < (resample imtime drvtime samples).length),
      (resample imtime drvtime samples)[i] ≤ 65535 ∧
        ((resample imtime drvtime samples)[i] = 0 →
          i + 1 < (resample imtime drvtime samples).length) := by
  intro i hi
  have hrun := scprun_resampleAux imtime drvtime samples 0
  constructor
  · exact scprun_mem_le _ hrun _ (List.getElem_mem hi)
  · intro h0
    have hne : resample imtime drvtime samples ≠ [] := by
      intro hcon
      rw [hcon] at hi
      exact absurd hi (by simp)
    obtain ⟨v, hv, hv1, _⟩ := scprun_getLast _ hrun hne
    exact zero_has_successor _ v hv (by omega) i hi h0

theorem resample_no_spurious_zero_witness : 0 < 3 ∧ (3 : Nat) ≤ 65535 := by
  have hres : resample 3 2 [5] = [3] := by
    simp [resample, resampleAux, emitStep, sentinelUnits_spec, sentinelRem_spec]
  have hi : 0 < (resample 3 2 [5]).length := by rw [hres]; decide
  have happ := resample_no_spurious_zero 3 2 (by decide) (by decide) [5] 0 hi
  refine ⟨by decide, ?_⟩
  have h1 := happ.1
  simpa [hres] using h1

/-- Claim C10: for every nonempty input sample sequence and `imtime > 0`,
the resampler's output is nonempty, its last unit is non-sentinel (in
`[1, 65535]`), and every emitted sentinel unit is followed by at least one
further unit — the buffer handed to `scp_write_flux` never ends in, and
never consists solely of, sentinel units. -/
theorem resample_output_terminated (imtime drvtime : Nat) (him : 0 < imtime)
    (samples : List Nat) (hs : samples ≠ []) :
    resample imtime drvtime samples ≠ [] ∧
      (∃ v, (resample imtime drvtime samples).getLast? = some v ∧
        1 ≤ v ∧ v ≤ 65535) ∧
      ∀ i (hi : i < (resample imtime drvtime samples).length),
        (resample imtime drvtime samples)[i] = 0 →
          i + 1 < (resample imtime drvtime samples).length := by
  have hne : resample imtime drvtime samples ≠ [] :=
    resampleAux_ne_nil imtime drvtime samples 0 hs
  have hrun := scprun_resampleAux imtime drvtime samples 0
  obtain ⟨v, hv, hv1, hv2⟩ := scprun_getLast _ hrun hne
  exact ⟨hne, ⟨v, hv, hv1, hv2⟩,
    fun i hi h0 => zero_has_successor _ v hv (by omega) i hi h0⟩

theorem resample_output_terminated_witness :
    0 < 3 ∧ ([5] : List Nat) ≠ [] ∧ resample 3 2 [5] ≠ [] :=
  ⟨by decide, by decide, (resample_output_terminated 3 2 (by decide) [5] (by decide)).1⟩

/-- Claim C4 as written is refuted: on samples `[100, 0, 50000]` with
`imtime = 200000` and `drvtime = 100000` the emitted unit values sum to
57818 ticks, not 32868.  (The claim decodes the sentinel pair
`0, 50000` as `65536 + 50000 = 65636`, an arithmetic slip — it is
115536, so the expected sum is `(100 + 115536) / 2 = 57818`.) -/
theorem resample_scenario_counterexample :
    totalTicks (resample 200000 100000 [100, 0, 50000]) ≠ 32868 := by
  have hres : resample 200000 100000 [100, 0, 50000] = [50, 57768] := by
    simp [resample, resampleAux, emitStep, sentinelUnits_spec, sentinelRem_spec]
  rw [hres]
  decide

/-- Claim C4 (amended): on one revolution with samples `[100, 0, 50000]`,
`imtime = 200000` and `drvtime = 100000`, the resampler emits
`[50, 57768]`, whose unit values sum to
`57818 = (100 + 65536 + 50000) * 100000 / 200000` ticks, with every unit
in `[1, 65535]` and no sentinel unit emitted. -/
theorem resample_scenario_amended :
    resample 200000 100000 [100, 0, 50000] = [50, 57768] ∧
      totalTicks (resample 200000 100000 [100, 0, 50000]) = 57818 ∧
      totalTicks (resample 200000 100000 [100, 0, 50000]) =
        (100 + 65536 + 50000) * 100000 / 200000 ∧
      ∀ u ∈ resample 200000 100000 [100, 0, 50000], 1 ≤ u ∧ u ≤ 65535 := by
  have hres : resample 200000 100000 [100, 0, 50000] = [50, 57768] := by
    simp [resample, resampleAux, emitStep, sentinelUnits_spec, sentinelRem_spec]
  refine ⟨hres, ?_, ?_, ?_⟩ <;> rw [hres] <;> decide

/-- The 3-byte track-record signature compared by
`memcmp(thdr.sig, "TRK", 3)` (ASCII codes of T, R, K). -/
def trkSig : List Nat := [84, 82, 75]

/-- The per-track header fields of `struct track_header` that
`scp_write.c` uses: the 3-byte signature, the track number, and the first
revolution's `duration` (which becomes `imtime`).  The first revolution's
`offset` and `nr_samples` fields only locate the sample data inside the
file; the samples read there are modelled by `SCPFile.samples`. -/
structure TrackHeader where
  sig : List Nat
  tracknr : Nat
  duration : Nat

/-- The parts of an `.scp` container that `scp_write.c` reads.  Numeric
fields are modelled after decoding (`le32toh`), sample units after
`be16toh`; `writable` models the tested flag bit
`dhdr.flags & (1u << _FLAG_writable)`; `payload` is the byte sequence
from offset 16 to end of file (each byte an unsigned 8-bit value);
`fileSize` is what `lseek(fd, 0, SEEK_END)` reports; `offsets t` is the
decoded track-offset-table entry for track `t`; `track t` and
`samples t` are the track header and decoded first-revolution samples
stored at that offset. -/
structure SCPFile where
  sigOK : Bool
  writable : Bool
  checksum : Nat
  start_track : Nat
  end_track : Nat
  fileSize : Nat
  payload : List Nat
  offsets : Nat → Nat
  track : Nat → TrackHeader
  samples : Nat → List Nat

/-- Hardware and file operations issued by `scp_write.c` after option
parsing. -/
inductive Event
  | fileOpen
  | seekTrack (t : Nat)
  | readFlux
  | writeFlux (t : Nat) (units : List Nat)
deriving DecidableEq

/-- Fatal exits of `scp_write.c` (`usage(1)` / `errx` calls), plus the
division-by-zero fault: `y = x / imtime` at line 194 carries no zero
check, so `imtime = 0` with a nonempty sample list is undefined behaviour
in the C source and is modelled as the fault outcome `divByZero`. -/
inductive RunError
  | badRange
  | notSCP
  | tooShort
  | badChecksum
  | badTrackSig (t : Nat)
  | divByZero (t : Nat)
deriving DecidableEq

/-- The additive payload-checksum loop of `scp_write.c` (lines 128-137):
unsigned 8-bit bytes summed into a `uint32_t`, wrapping modulo `2^32`. -/
def csum (bytes : List Nat) : Nat :=
  bytes.foldl (fun a b => (a + b) % 4294967296) 0

/-- The checksum gate of `scp_write.c` (lines 125-142): verification runs
only when the writable flag is clear and the declared checksum nonzero;
a file shorter than the 16-byte header is then rejected, and a recomputed
sum that differs from the declared checksum is fatal. -/
def checksumGate (img : SCPFile) : Option RunError :=
  if img.writable = false ∧ img.checksum ≠ 0 then
    if img.fileSize < 16 then some RunError.tooShort
    else if csum img.payload ≠ img.checksum then some RunError.badChecksum
    else none
  else none

/-- Processing of one requested track by the main loop of `scp_write.c`
(lines 161-205): skip silently when the track is outside the image's
recorded bounds or its offset-table entry is 0; otherwise check the track
signature and number, take `imtime` from the first revolution's
`duration`, resample, and seek + write.  Reaching the division
`y = x / imtime` with `imtime = 0` — which happens exactly when the
sample list is nonempty — is the modelled division-by-zero fault. -/
def writeTrack (img : SCPFile) (drvtime trk : Nat) :
    List Event × Option RunError :=
  if trk < img.start_track ∨ img.end_track < trk then ([], none)
  else if img.offsets trk = 0 then ([], none)
  else
    let thdr := img.track trk
    if thdr.sig ≠ trkSig ∨ thdr.tracknr ≠ trk then
      ([], some (RunError.badTrackSig trk))
    else
      let imtime := thdr.duration
      let ss := img.samples trk
      if imtime = 0 ∧ ss ≠ [] then ([], some (RunError.divByZero trk))
      else
        ([Event.seekTrack trk, Event.writeFlux trk (resample imtime drvtime ss)],
          none)

/-- The `for (trk = start_trk; trk <= end_trk; trk++)` loop, accumulating
hardware events and stopping at the first fatal error. -/
def runTracks (img : SCPFile) (drvtime : Nat) :
    List Nat → List Event × Option RunError
  | [] => ([], none)
  | trk :: rest =>
    match writeTrack img drvtime trk with
    | (evs, some e) => (evs, some e)
    | (evs, none) =>
      let p := runTracks img drvtime rest
      (evs ++ p.1, p.2)

/-- The post-option-parsing body of `main` in `scp_write.c`: the track
range check, the container signature check, the checksum gate, then the
reference-period measurement (seek to track 0, read flux) and the track
loop.  `SCP_MAX_TRACKS` is defined in `scp.h`, which is not among the
sources under verification, so the bound is a parameter `maxTracks`. -/
def scpWriteMain (maxTracks start_trk end_trk : Nat) (img : SCPFile)
    (drvtime : Nat) : List Event × Option RunError :=
  if maxTracks ≤ end_trk ∨ end_trk < start_trk then
    ([], some RunError.badRange)
  else if img.sigOK = false then ([Event.fileOpen], some RunError.notSCP)
  else
    match checksumGate img with
    | some e => ([Event.fileOpen], some e)
    | none =>
      let p := runTracks img drvtime (List.range' start_trk (end_trk + 1 - start_trk))
      ([Event.fileOpen, Event.seekTrack 0, Event.readFlux] ++ p.1, p.2)

/-- A minimal concrete sealed container used to instantiate the driver
theorems: writable flag clear, declared checksum `6 = csum [1, 2, 3]`. -/
def sampleFile : SCPFile :=
  { sigOK := true
    writable := false
    checksum := 6
    start_track := 0
    end_track := 1
    fileSize := 19
    payload := [1, 2, 3]
    offsets := fun _ => 0
    track := fun t => { sig := trkSig, tracknr := t, duration := 1 }
    samples := fun _ => [] }

theorem csum_foldl (bytes : List Nat) :
    ∀ a : Nat,
      List.foldl (fun a b => (a + b) % 4294967296) (a % 4294967296) bytes =
        (a + bytes.sum) % 4294967296 := by
  induction bytes with
  | nil => intro a; simp
  | cons b l ih =>
    intro a
    simp only [List.foldl_cons, List.sum_cons]
    rw [Nat.mod_add_mod, ← Nat.add_assoc]
    exact ih (a + b)

/-- The wrapping byte-sum loop computes the plain sum reduced modulo
`2^32`. -/
theorem csum_eq_sum_mod (bytes : List Nat) :
    csum bytes = bytes.sum % 4294967296 := by
  have h := csum_foldl bytes 0
  simpa [csum] using h

theorem sum_set_nat (l : List Nat) :
    ∀ (i b : Nat), ∀ hi : i < l.length, (l.set i b).sum + l[i] = l.sum + b := by
  induction l with
  | nil => intro i b hi; exact absurd hi (by simp)
  | cons a l ih =>
    intro i b hi
    cases i with
    | zero => simp [List.set]; omega
    | succ n =>
      have hn : n < l.length := by simpa using hi
      have h := ih n b hn
      simp only [List.set, List.sum_cons, List.getElem_cons_succ]
      omega

/-- Changing a single byte (both old and new value below 256) always
changes the wrapping 32-bit byte sum. -/
theorem csum_set_ne (l : List Nat) (i b : Nat) (hi : i < l.length)
    (hb : b < 256) (hl : ∀ u ∈ l, u < 256) (hne : b ≠ l[i]) :
    csum (l.set i b) ≠ csum l := by
  rw [csum_eq_sum_mod, csum_eq_sum_mod]
  have hs := sum_set_nat l i b hi
  have hx : l[i] < 256 := hl _ (List.getElem_mem hi)
  omega

/-- Claim C5: checksum verification is skipped iff the writable flag bit
is set or the declared checksum is 0; otherwise every payload byte
(offset 16 to end of stream) is summed as an unsigned 8-bit value into a
wrapping unsigned 32-bit total and any disagreement with the declared
checksum is the fatal integrity error — in particular, corrupting any
single payload byte of a sealed container is detected. -/
theorem scp_checksum_gate (img : SCPFile)
    (hsz : img.fileSize = 16 + img.payload.length)
    (hbytes : ∀ u ∈ img.payload, u < 256) :
    ((img.writable = true ∨ img.checksum = 0) → checksumGate img = none) ∧
      (img.writable = false → img.checksum ≠ 0 →
        csum img.payload ≠ img.checksum →
        checksumGate img = some RunError.badChecksum) ∧
      (img.writable = false → img.checksum = csum img.payload →
        img.checksum ≠ 0 →
        ∀ i (hi : i < img.payload.length), ∀ b, b < 256 →
          b ≠ img.payload[i] →
          checksumGate { img with payload := img.payload.set i b } =
            some RunError.badChecksum) := by
  refine ⟨?_, ?_, ?_⟩
  · intro h
    rw [checksumGate]
    rcases h with h | h
    · rw [if_neg]
      intro hcon
      rw [h] at hcon
      exact absurd hcon.1 (by decide)
    · rw [if_neg]
      intro hcon
      exact hcon.2 h
  · intro hw hc hsum
    rw [checksumGate, if_pos ⟨hw, hc⟩, if_neg (by omega), if_pos hsum]
  · intro hw hdecl hc i hi b hb hbne
    rw [checksumGate]
    rw [if_pos ⟨hw, hc⟩]
    have hlen : (img.payload.set i b).length = img.payload.length :=
      List.length_set img.payload i b
    rw [if_neg (by simp only [hlen]; omega)]
    rw [if_pos]
    have := csum_set_ne img.payload i b hi hb hbytes hbne
    simp only []
    rw [hdecl]
    exact this

theorem scp_checksum_gate_witness :
    sampleFile.fileSize = 16 + sampleFile.payload.length ∧
      checksumGate { sampleFile with payload := sampleFile.payload.set 0 5 } =
        some RunError.badChecksum := by
  refine ⟨by decide, ?_⟩
  exact (scp_checksum_gate sampleFile (by decide) (by decide)).2.2
    (by decide) (by decide) (by decide) 0 (by decide) 5 (by decide) (by decide)

/-- Claim C7: a requested track outside the container's recorded
`[start_track, end_track]` bounds, or whose offset-table entry is 0, is
skipped silently: no parse, no resample, no write, no error; the loop
simply continues with the remaining tracks. -/
theorem scp_skip_absent_track (img : SCPFile) (drvtime trk : Nat)
    (rest : List Nat)
    (h : trk < img.start_track ∨ img.end_track < trk ∨ img.offsets trk = 0) :
    writeTrack img drvtime trk = ([], none) ∧
      runTracks img drvtime (trk :: rest) = runTracks img drvtime rest := by
  have hw : writeTrack img drvtime trk = ([], none) := by
    rcases h with h | h | h
    · rw [writeTrack, if_pos (Or.inl h)]
    · rw [writeTrack, if_pos (Or.inr h)]
    · rw [writeTrack]
      by_cases hb : trk < img.start_track ∨ img.end_track < trk
      · rw [if_pos hb]
      · rw [if_neg hb, if_pos h]
  refine ⟨hw, ?_⟩
  simp [runTracks, hw]

theorem scp_skip_absent_track_witness :
    ((5 : Nat) < sampleFile.start_track ∨ sampleFile.end_track < 5 ∨
        sampleFile.offsets 5 = 0) ∧
      writeTrack sampleFile 7 5 = ([], none) :=
  ⟨Or.inr (Or.inl (by decide)),
    (scp_skip_absent_track sampleFile 7 5 [] (Or.inr (Or.inl (by decide)))).1⟩

/-- Claim C8: a requested range with `end_trk ≥ SCP_MAX_TRACKS` or
`start_trk > end_trk` fails with the range error before any file or
hardware I/O: the event trace is empty. -/
theorem scp_bad_range_rejected (maxTracks start_trk end_trk : Nat)
    (img : SCPFile) (drvtime : Nat)
    (h : maxTracks ≤ end_trk ∨ end_trk < start_trk) :
    scpWriteMain maxTracks start_trk end_trk img drvtime =
      ([], some RunError.badRange) := by
  rw [scpWriteMain, if_pos h]

theorem scp_bad_range_rejected_witness :
    ((166 : Nat) ≤ 166 ∨ (166 : Nat) < 0) ∧
      scpWriteMain 166 0 166 sampleFile 5 = ([], some RunError.badRange) :=
  ⟨Or.inl (le_refl 166),
    scp_bad_range_rejected 166 0 166 sampleFile 5 (Or.inl (le_refl 166))⟩

/-- Concrete container whose track 0 is present with a zero
first-revolution `duration` and a nonempty sample list. -/
def zeroDurationFile : SCPFile :=
  { sigOK := true
    writable := true
    checksum := 0
    start_track := 0
    end_track := 0
    fileSize := 16
    payload := []
    offsets := fun _ => 16
    track := fun t => { sig := trkSig, tracknr := t, duration := 0 }
    samples := fun _ => [100] }

/-- Claim C3 is violated by the code: `scp_write.c` never validates
`thdr.rev[0].duration`, so a present track with `imtime = 0` and a
nonempty sample list reaches `y = x / imtime` with a zero divisor
(undefined behaviour in C, modelled as the `divByZero` fault) instead of
failing with a format error before resampling; no write event is
issued. -/
theorem scp_zero_duration_division :
    writeTrack zeroDurationFile 100 0 = ([], some (RunError.divByZero 0)) := by
  decide
